import Mathlib

/-!
Verification development for swscale_bench (src/swscale_bench/main.cpp).

The program benchmarks an external pixel-conversion routine. The core is:

* thread_target (lines 36-83): one worker thread constructs a conversion
  context and two frame buffers, then repeatedly claims work units by an
  atomic post-decrement of a shared counter, performing one sws_scale call
  per claimed unit; on any failure it jumps to a shared exit path that
  conditionally stores the local err value into a shared atomic error flag
  and unconditionally releases the resources.
* execute (lines 85-122): the sweep driver; for each thread count n in the
  selected range it creates a fresh counter (initialized to the unsigned
  product times * n cast to a signed 32-bit int) and a fresh error flag,
  spawns n workers, joins them, and either throws on error or prints a
  report block.

The embedding below models thread_target twice, at two granularities that
share the construction model CtorEnv / ctorErr:

* a sequential model (workLoop, thread_target) of one thread's control
  flow, tracking the local err variable, the claims made, and the held
  resources along every exit path;
* a shared-state small-step model (stepWorker, step, runFrom) of n workers
  interleaving on the shared counter and error flag, driven by an explicit
  schedule of events; the sweep driver (sweepLoop, execute) is modelled on
  top of it.

Machine integers: the shared counter is a C std atomic int. Its initial
value is the wrapped 32-bit cast i32cast (times * n), and the atomic
post-decrement is modelled with the wrapping arithmetic the C++ memory
model guarantees for atomic integers: one decrement moves the counter to
wrap32 (counter - 1), so decrementing the counter at -2 to the 31 wraps it
to 2 to the 31 minus 1, exactly as fetch_sub does in the program. Elapsed
time and throughput are modelled over the rationals; the one claim that
turns on floating-point corner behavior is settled at a negative elapsed
value, where rational and IEEE arithmetic agree exactly.
-/

namespace SwscaleBench

/-- Outcome of the per-thread construction calls of thread_target:
whether sws_getContext (line 46) and the two av_frame_alloc calls
(lines 49-52) returned non-null, and the int returns of the two
av_frame_get_buffer calls (lines 62-65), where 0 means success. -/
structure CtorEnv where
  swsOk : Bool
  srcAllocOk : Bool
  dstAllocOk : Bool
  srcBufRet : Int
  dstBufRet : Int
deriving DecidableEq

/-- Value of the local variable err when control reaches the fail label
through the construction goto chain of thread_target (lines 44-65);
none means construction succeeded. err starts at 1, so the three
pointer-returning failures leave err = 1; a failing av_frame_get_buffer
stores its nonzero return in err; after both buffer calls succeed,
err = 0. -/
def ctorErr (c : CtorEnv) : Option Int :=
  if !c.swsOk then some 1
  else if !c.srcAllocOk then some 1
  else if !c.dstAllocOk then some 1
  else if c.srcBufRet ≠ 0 then some c.srcBufRet
  else if c.dstBufRet ≠ 0 then some c.dstBufRet
  else none

/-- Which of the three resources of thread_target are currently held
(non-null): the SwsContext and the source and destination AVFrames. -/
structure Resources where
  sws : Bool
  srcFrame : Bool
  dstFrame : Bool
deriving DecidableEq

/-- The cleanup epilogue of thread_target (lines 80-82):
av_frame_free on the source frame, av_frame_free on the destination frame,
sws_freeContext on the context; each releases its resource (the calls are
null-safe). -/
def releaseAll (r : Resources) : Resources :=
  { { { r with srcFrame := false } with dstFrame := false } with sws := false }

/-- Observable result of one thread_target execution: the local err at the
fail label, the value stored to the shared error flag (none when the
conditional store at lines 77-78 is skipped because err = 0), the
pre-decrement counter values of the work units claimed, whether the thread
left the loop through a failing sws_scale call, and the held resources
before and after the cleanup epilogue. -/
structure TTResult where
  errAtFail : Int
  stored : Option Int
  claimed : List Int
  convFailed : Bool
  heldAtFail : Resources
  heldFinal : Resources
deriving DecidableEq

/-- Reaching the fail label of thread_target with local err, claims made so
far and resources held: the conditional store (lines 77-78) followed by the
unconditional release epilogue (lines 80-82). -/
def ttExit (err : Int) (claimed : List Int) (convFailed : Bool) (held : Resources) : TTResult :=
  { errAtFail := err
    stored := if err = 0 then none else some err
    claimed := claimed
    convFailed := convFailed
    heldAtFail := held
    heldFinal := releaseAll held }

/-- The work loop of thread_target (lines 67-73) as seen by one thread.
Each trace entry supplies the pre-decrement value this thread observes from
its atomic (*counter)-- together with the return value its sws_scale call
would have. Returns (claims, whether a conversion call failed, value of err
on leaving the loop); none when the trace is too short for the loop to
terminate. On the break path err is 0 (assigned at line 75). On the
sws_scale failure path err is ALSO 0: the successful av_frame_get_buffer at
line 64 left err = 0 and the sws_scale return value is never assigned to
err, so the goto at line 72 reaches the fail label with err = 0. -/
def workLoop : List (Int × Int) → List Int → Option (List Int × Bool × Int)
  | [], _ => none
  | (pre, r) :: rest, claimed =>
    if pre ≤ 0 then some (claimed, false, 0)
    else if r < 0 then some (claimed ++ [pre], true, 0)
    else workLoop rest (claimed ++ [pre])

/-- thread_target (lines 36-83): the construction goto chain, then the work
loop, then the shared exit path. The trace argument drives the work loop as
in workLoop. -/
def thread_target (c : CtorEnv) (trace : List (Int × Int)) : Option TTResult :=
  if !c.swsOk then some (ttExit 1 [] false ⟨false, false, false⟩)
  else if !c.srcAllocOk then some (ttExit 1 [] false ⟨true, false, false⟩)
  else if !c.dstAllocOk then some (ttExit 1 [] false ⟨true, true, false⟩)
  else if c.srcBufRet ≠ 0 then some (ttExit c.srcBufRet [] false ⟨true, true, true⟩)
  else if c.dstBufRet ≠ 0 then some (ttExit c.dstBufRet [] false ⟨true, true, true⟩)
  else (workLoop trace []).map fun x => ttExit x.2.2 x.1 x.2.1 ⟨true, true, true⟩

/-- Conversion of a value of C type unsigned (32 bits) to a C int
(32 bits, twos complement), as performed by static_cast int at line 97. -/
def i32cast (u : ℕ) : Int :=
  if u % 2 ^ 32 < 2 ^ 31 then ((u % 2 ^ 32 : ℕ) : Int)
  else ((u % 2 ^ 32 : ℕ) : Int) - 2 ^ 32

/-- Initial value of the shared counter for one run (line 97): the unsigned
product times * n, which wraps modulo 2 to the 32, cast to a signed int. -/
def initCounter (times n : ℕ) : Int := i32cast (times * n)

/-- Reduction of an integer into the value range of a 32-bit twos
complement int, as C++ atomic integer arithmetic does: atomic fetch_sub
wraps, so decrementing a counter that stands at -2 to the 31 produces
2 to the 31 minus 1. -/
def wrap32 (x : Int) : Int := (x + 2 ^ 31) % 2 ^ 32 - 2 ^ 31

/-- Local state of one worker in the shared-state model of thread_target:
before its construction calls; inside the work loop, with the
pre-decrement values of the units it has claimed (most recent first); or
terminated. A worker whose construction failed terminates with no claims.
The Bool of finished records whether the worker left the loop through a
failing sws_scale call. -/
inductive WStat
  | initial : WStat
  | looping : List Int → WStat
  | finished : List Int → Bool → WStat
deriving DecidableEq

/-- The work units (pre-decrement counter values) a worker has claimed. -/
def claimedOf : WStat → List Int
  | .initial => []
  | .looping c => c
  | .finished c _ => c

/-- Whether a worker has terminated. -/
def isFinished : WStat → Bool
  | .finished _ _ => true
  | _ => false

/-- Shared state of one run: the atomic counter and atomic error flag
created at lines 97-98 of execute, plus every worker's local state. -/
structure RunState where
  counter : Int
  error : Int
  workers : List WStat
deriving DecidableEq

/-- One shared-memory step of a single worker, given its construction
outcome c, the current shared counter and error values, its local state,
and the return value r its next sws_scale call would have. Returns the new
counter, error and local state.

An initial worker performs its construction; on failure it reaches the
fail label with err equal to the ctorErr value and executes lines 77-78
(store err into the error flag when nonzero), terminating with no claims;
on success it enters the loop. A looping worker performs one loop
iteration: the atomic post-decrement at line 68, observing the current
counter as pre-decrement value and moving the counter to the wrapping
difference wrap32 (counter - 1), as atomic fetch_sub on a 32-bit int does;
if the observed value is nonpositive it breaks (err = 0, so the store at
line 78 is skipped and the error flag is unchanged); otherwise it has
claimed one unit and calls sws_scale; a negative return takes the goto at
line 72 to the fail label with err still 0 from line 64, so, as in
workLoop, the error flag is NOT written; a nonnegative return continues
the loop. A finished worker does nothing. -/
def stepWorker (c : CtorEnv) (counter error : Int) (w : WStat) (r : Int) : Int × Int × WStat :=
  match w with
  | .initial =>
    match ctorErr c with
    | some e => (counter, if e = 0 then error else e, .finished [] false)
    | none => (counter, error, .looping [])
  | .looping claimed =>
    if counter ≤ 0 then (wrap32 (counter - 1), error, .finished claimed false)
    else if r < 0 then (wrap32 (counter - 1), error, .finished (counter :: claimed) true)
    else (wrap32 (counter - 1), error, .looping (counter :: claimed))
  | .finished claimed f => (counter, error, .finished claimed f)

/-- One step of a run: the scheduled event ev names a worker index and the
sws_scale return value for a loop iteration; an out-of-range index is a
no-op. cfgs gives each worker its construction outcome. -/
def step (cfgs : ℕ → CtorEnv) (s : RunState) (ev : ℕ × Int) : RunState :=
  match s.workers[ev.1]? with
  | none => s
  | some w =>
    let t := stepWorker (cfgs ev.1) s.counter s.error w ev.2
    ⟨t.1, t.2.1, s.workers.set ev.1 t.2.2⟩

/-- The state of a run at the moment execute has created the counter and
error flag (lines 97-98) and spawned n workers, none of which has run yet:
counter at the cast product, error at 0, every worker initial. -/
def initState (times n : ℕ) : RunState :=
  ⟨initCounter times n, 0, List.replicate n .initial⟩

/-- Drive a run state through a schedule of events. -/
def runFrom (cfgs : ℕ → CtorEnv) (s : RunState) (events : List (ℕ × Int)) : RunState :=
  events.foldl (step cfgs) s

/-- Environment of one run: each worker's construction outcome, the
interleaving schedule of worker events, and the wall-clock duration the
timer measures for the run. -/
structure RunEnv where
  cfgs : ℕ → CtorEnv
  events : List (ℕ × Int)
  elapsed : ℚ

/-- Final state of the run at thread count n: the fresh initial state
driven through the run's schedule. -/
def runFinal (times n : ℕ) (env : RunEnv) : RunState :=
  runFrom env.cfgs (initState times n) env.events

/-- All work units claimed in a run state, across all workers. -/
def allClaimed (s : RunState) : List Int :=
  (s.workers.map claimedOf).flatten

/-- Aggregate number of conversion calls performed in a run state. -/
def totalClaims (s : RunState) : ℕ :=
  (allClaimed s).length

/-- Whether every worker of the run has terminated (all joins at
lines 107-109 would return). -/
def allFinished (s : RunState) : Bool :=
  s.workers.all isFinished

/-- How many workers of the run have terminated. -/
def numFinished (s : RunState) : ℕ :=
  s.workers.countP isFinished

/-- The throughput expression of line 120: the iteration count divided by
the elapsed time, with no guard of any kind on the divisor. -/
def fps (total elapsed : ℚ) : ℚ := total / elapsed

/-- What execute reports as throughput for a successful run: always the
quotient of line 120; the some wrapper records that a numeric value is
printed (the code has no sentinel path). -/
def fpsReported (total elapsed : ℚ) : Option ℚ := some (fps total elapsed)

/-- Modelled from the spec: the guarded throughput policy the spec
prescribes for the Run Coordinator (section 4.2) — if elapsed time is zero
or negative, report a sentinel (none) instead of performing the division.
Stated here only for comparison with fpsReported, which is what the code
does. -/
def fpsGuardedSpec (total elapsed : ℚ) : Option ℚ :=
  if elapsed ≤ 0 then none else some (total / elapsed)

/-- One item of the program's report stream: the header line of
lines 91-93, a per-run report block of lines 117-120 (thread count, printed
iteration count, printed throughput), or the failure notice of line 113
printed just before the throw at line 114. -/
inductive OutputItem
  | header : OutputItem
  | reportBlock : ℕ → ℕ → ℚ → OutputItem
  | failureNotice : Int → OutputItem
deriving DecidableEq

/-- Result of the sweep: the emitted report stream, whether the sweep was
aborted by a throw, and the thread counts actually run, in order. -/
structure SweepResult where
  outputs : List OutputItem
  aborted : Bool
  runs : List ℕ
deriving DecidableEq

/-- Lower bound of the thread sweep (line 88). -/
def threadMin (threads : ℕ) : ℕ := if threads ≠ 0 then threads else 1

/-- Upper bound of the thread sweep (line 89); hc is the hardware
concurrency the platform reports. -/
def threadMax (threads hc : ℕ) : ℕ := if threads ≠ 0 then threads else hc

/-- The thread counts the for loop at line 95 iterates over:
threadMin, threadMin + 1, ..., threadMax (empty when threadMax is below
threadMin). -/
def threadCounts (threads hc : ℕ) : List ℕ :=
  List.range' (threadMin threads) (threadMax threads hc + 1 - threadMin threads)

/-- The report block printed for a successful run at thread count n
(lines 117-120): the thread count, the printed iteration count times * n
computed in unsigned arithmetic (hence wrapped modulo 2 to the 32), and the
throughput quotient of that same wrapped product by the elapsed time. -/
def blockFor (times : ℕ) (envs : ℕ → RunEnv) (n : ℕ) : OutputItem :=
  .reportBlock n (times * n % 2 ^ 32)
    (fps ((times * n % 2 ^ 32 : ℕ) : ℚ) (envs n).elapsed)

/-- Body of the sweep loop of execute (lines 95-121) over the remaining
thread counts: run the workers, join, and either print the failure notice
and throw (line 112-115, truthiness of the atomic error means nonzero) or
print the report block and continue. -/
def sweepLoop (times : ℕ) (envs : ℕ → RunEnv) : List ℕ → SweepResult
  | [] => ⟨[], false, []⟩
  | n :: rest =>
    if (runFinal times n (envs n)).error ≠ 0 then
      ⟨[.failureNotice (runFinal times n (envs n)).error], true, [n]⟩
    else
      let r := sweepLoop times envs rest
      ⟨blockFor times envs n :: r.outputs, r.aborted, n :: r.runs⟩

/-- execute (lines 85-122): print the header, then run the sweep loop over
the selected thread counts. -/
def execute (times threads hc : ℕ) (envs : ℕ → RunEnv) : SweepResult :=
  ⟨.header :: (sweepLoop times envs (threadCounts threads hc)).outputs,
    (sweepLoop times envs (threadCounts threads hc)).aborted,
    (sweepLoop times envs (threadCounts threads hc)).runs⟩

/-- Process exit status of main (lines 176-184) once arguments parsed
successfully: 1 when execute throws (the catch at line 179), else 0. -/
def mainExitCode (times threads hc : ℕ) (envs : ℕ → RunEnv) : ℕ :=
  if (execute times threads hc envs).aborted then 1 else 0

/-- Aggregate number of conversion calls performed across every run the
sweep actually executed. -/
def sweepConversions (times threads hc : ℕ) (envs : ℕ → RunEnv) : ℕ :=
  (((execute times threads hc envs).runs).map
    fun n => totalClaims (runFinal times n (envs n))).sum

/-- Core of the counter-protocol invariant, for a run whose counter
started at init and has not yet wrapped: the counter never exceeds init;
every claimed unit lies strictly above the current counter (each claim
recorded the then-current counter value, which the claiming decrement
immediately moved below); no unit is claimed twice; and the claims
performed plus the remaining positive budget never exceed the initial
positive budget. -/
def CoreInv (init : Int) (s : RunState) : Prop :=
  s.counter ≤ init ∧
  (∀ v ∈ allClaimed s, s.counter < v) ∧
  (allClaimed s).Nodup ∧
  (totalClaims s : Int) + max s.counter 0 ≤ max init 0

/-- Full counter-protocol invariant for a run with n workers: the worker
count is stable, the decrements taken so far (init minus the counter) are
covered by the claims plus the number of terminated workers — each worker
decrements once per claim and at most once more, to break — and the core
invariant holds. The decrement bound is what keeps the counter away from
-2 to the 31, where the atomic decrement would wrap, as long as n is small
enough. -/
def ClaimInv (init : Int) (n : ℕ) (s : RunState) : Prop :=
  s.workers.length = n ∧
  init - s.counter ≤ (totalClaims s : Int) + (numFinished s : Int) ∧
  CoreInv init s

/-- Invariant giving the exact aggregate conversion count of a
failure-free run whose counter started at init with n workers: the worker
count is stable; the counter never exceeds init; the decrements taken are
covered by the claims plus the terminated workers (keeping the counter
away from the wrap point when n is small enough); the conversions
performed equal the decrements taken, saturated at the initial positive
budget; and a worker only ever finishes by observing a nonpositive
pre-decrement value, so as soon as any worker has finished the counter is
negative. -/
def CountInv (init : Int) (n : ℕ) (s : RunState) : Prop :=
  s.workers.length = n ∧
  s.counter ≤ init ∧
  init - s.counter ≤ (totalClaims s : Int) + (numFinished s : Int) ∧
  (totalClaims s : Int) = min (init - s.counter) (max init 0) ∧
  (∀ w ∈ s.workers, isFinished w = true → s.counter < 0)

/-- A construction environment in which every construction call succeeds. -/
def okCtor : CtorEnv := ⟨true, true, true, 0, 0⟩

/-- A construction environment in which sws_getContext returns null. -/
def swsFailCtor : CtorEnv := ⟨false, true, true, 0, 0⟩

/-- A concrete single-worker run environment in which construction
succeeds and every conversion call succeeds: enough schedule events for
worker 0 to enter the loop, claim twice at counter values 2 and 1, and
then break. Used at times = 2, n = 1. -/
def runEnvA : RunEnv := ⟨fun _ => okCtor, List.replicate 4 (0, 1), 1⟩

/-- A concrete single-worker run environment whose worker fails
construction (null context) and therefore sets the error flag. -/
def ctorFailEnv : RunEnv := ⟨fun _ => swsFailCtor, [(0, 0)], 1⟩

/-- A concrete single-worker run environment for a configuration whose
32-bit initial counter is nonpositive: worker 0 enters the loop and its
first decrement observes a nonpositive value, so it breaks at once.
Used at times = 2 to the 31, n = 1. -/
def overflowEnv : RunEnv := ⟨fun _ => okCtor, [(0, 1), (0, 1)], 1⟩

/-- Run environments, one per thread count, that all use runEnvA. -/
def envsA : ℕ → RunEnv := fun _ => runEnvA

/-- Run environments, one per thread count, that all use ctorFailEnv. -/
def envsFail : ℕ → RunEnv := fun _ => ctorFailEnv

/-- Run environments whose run at thread count 2 fails construction while
every other run succeeds. -/
def envsMixed : ℕ → RunEnv := fun m => if m = 2 then ctorFailEnv else runEnvA

/-- Run environments, one per thread count, that all use overflowEnv. -/
def envsOverflow : ℕ → RunEnv := fun _ => overflowEnv

/-- A concrete two-worker run environment for the configuration whose
32-bit initial counter is exactly -2 to the 31 (times = 2 to the 30,
n = 2): both workers enter the loop; worker 0 breaks, and its decrement
wraps the counter from -2 to the 31 up to 2 to the 31 minus 1; worker 1
then observes that huge positive value and claims a unit. -/
def wrapEnv : RunEnv := ⟨fun _ => okCtor, [(0, 1), (1, 1), (0, 1), (1, 1)], 1⟩

/-- Run environments, one per thread count, that all use wrapEnv. -/
def envsWrap : ℕ → RunEnv := fun _ => wrapEnv

/-! ### Basic lemmas about the embedded definitions -/

/-- Every error value the construction goto chain can deliver to the store
at line 78 is nonzero: the pointer failures leave err at its initial
value 1, and a buffer failure stores the failing nonzero return. -/
lemma ctorErr_ne_zero {c : CtorEnv} {e : Int} (h : ctorErr c = some e) : e ≠ 0 := by
  unfold ctorErr at h
  split_ifs at h <;> simp_all <;> omega

/-- A 32-bit value below 2 to the 31 is unchanged by the unsigned-to-int
cast. -/
lemma i32cast_of_lt {u : ℕ} (h : u < 2 ^ 31) : i32cast u = (u : Int) := by
  unfold i32cast
  have h32 : u % 2 ^ 32 = u := Nat.mod_eq_of_lt (lt_trans h (by norm_num))
  rw [h32, if_pos h]

/-- The unsigned-to-int cast lands in the value range of a 32-bit int. -/
lemma i32cast_range (u : ℕ) : -2 ^ 31 ≤ i32cast u ∧ i32cast u < 2 ^ 31 := by
  unfold i32cast
  have h32 : u % 2 ^ 32 < 2 ^ 32 := Nat.mod_lt u (by norm_num)
  split
  · rename_i h
    constructor
    · have : (0 : Int) ≤ ((u % 2 ^ 32 : ℕ) : Int) := Int.ofNat_nonneg _
      omega
    · exact_mod_cast h
  · rename_i h
    have h1 : ((u % 2 ^ 32 : ℕ) : Int) < 2 ^ 32 := by exact_mod_cast h32
    have h2 : (2 ^ 31 : Int) ≤ ((u % 2 ^ 32 : ℕ) : Int) := by
      have := not_lt.mp h
      exact_mod_cast this
    omega

/-- A value already inside the 32-bit range is fixed by wrap32: the atomic
decrement behaves like plain subtraction as long as the counter is not
being decremented at -2 to the 31. -/
lemma wrap32_eq {x : Int} (h1 : -2 ^ 31 ≤ x) (h2 : x < 2 ^ 31) : wrap32 x = x := by
  unfold wrap32
  omega

/-- Decrementing a counter that stands at -2 to the 31 wraps it to
2 to the 31 minus 1, as atomic fetch_sub does in the program. -/
lemma wrap32_underflow : wrap32 (-2 ^ 31 - 1) = 2 ^ 31 - 1 := by decide

/-- A worker step never clears a nonzero error flag: the only write is the
store of a nonzero construction error. -/
lemma stepWorker_error_ne (c : CtorEnv) (counter error : Int) (w : WStat) (r : Int)
    (h : error ≠ 0) : (stepWorker c counter error w r).2.1 ≠ 0 := by
  cases w with
  | initial =>
    cases hc : ctorErr c with
    | none => simpa [stepWorker, hc] using h
    | some e =>
      simp only [stepWorker, hc]
      split
      · exact h
      · exact ctorErr_ne_zero hc
  | looping claimed =>
    by_cases h1 : counter ≤ 0 <;> by_cases h2 : r < 0 <;>
      simp [stepWorker, h1, h2] <;> exact h
  | finished claimed f => simpa [stepWorker] using h

/-- A run step never clears a nonzero error flag. -/
lemma step_error_ne (cfgs : ℕ → CtorEnv) (s : RunState) (ev : ℕ × Int)
    (h : s.error ≠ 0) : (step cfgs s ev).error ≠ 0 := by
  unfold step
  cases hw : s.workers[ev.1]? with
  | none => exact h
  | some w => exact stepWorker_error_ne _ _ _ _ _ h

/-- A run step preserves the number of workers. -/
lemma step_workers_length (cfgs : ℕ → CtorEnv) (s : RunState) (ev : ℕ × Int) :
    (step cfgs s ev).workers.length = s.workers.length := by
  unfold step
  cases hw : s.workers[ev.1]? with
  | none => rfl
  | some w => simp

/-- Any sequence of run steps preserves the number of workers. -/
lemma runFrom_workers_length (cfgs : ℕ → CtorEnv) (s : RunState)
    (events : List (ℕ × Int)) :
    (runFrom cfgs s events).workers.length = s.workers.length := by
  induction events generalizing s with
  | nil => rfl
  | cons ev rest ih =>
    rw [runFrom, List.foldl_cons]
    exact (ih (step cfgs s ev)).trans (step_workers_length cfgs s ev)

/-- Schedules compose: driving a state through appended schedules is
driving it through one then the other. -/
lemma runFrom_append (cfgs : ℕ → CtorEnv) (s : RunState) (a b : List (ℕ × Int)) :
    runFrom cfgs s (a ++ b) = runFrom cfgs (runFrom cfgs s a) b := by
  simp [runFrom, List.foldl_append]

/-- Any sequence of run steps never clears a nonzero error flag. -/
lemma runFrom_error_ne (cfgs : ℕ → CtorEnv) (s : RunState) (events : List (ℕ × Int))
    (h : s.error ≠ 0) : (runFrom cfgs s events).error ≠ 0 := by
  induction events generalizing s with
  | nil => exact h
  | cons ev rest ih => exact ih (step cfgs s ev) (step_error_ne cfgs s ev h)

/-- Replacing one worker by a worker with the same claims leaves the list
of all claimed units unchanged. -/
lemma flatten_map_set_eq (l : List WStat) (i : ℕ) (w : WStat) (h : i < l.length)
    (hw : claimedOf w = claimedOf l[i]) :
    ((l.set i w).map claimedOf).flatten = (l.map claimedOf).flatten := by
  induction l generalizing i with
  | nil => exact absurd h (by simp)
  | cons a t ih =>
    cases i with
    | zero =>
      simp only [List.getElem_cons_zero] at hw
      simp [hw]
    | succ j =>
      have hj : j < t.length := by simpa using h
      simp only [List.getElem_cons_succ] at hw
      simp only [List.set_cons_succ, List.map_cons, List.flatten_cons]
      rw [ih j hj hw]

/-- Replacing one worker by a worker with one extra claimed unit x permutes
the list of all claimed units into x consed onto the old list. -/
lemma flatten_map_set_cons (l : List WStat) (i : ℕ) (w : WStat) (x : Int) (h : i < l.length)
    (hw : claimedOf w = x :: claimedOf l[i]) :
    List.Perm (((l.set i w).map claimedOf).flatten) (x :: (l.map claimedOf).flatten) := by
  induction l generalizing i with
  | nil => exact absurd h (by simp)
  | cons a t ih =>
    cases i with
    | zero =>
      simp only [List.getElem_cons_zero] at hw
      simp [hw]
    | succ j =>
      have hj : j < t.length := by simpa using h
      simp only [List.getElem_cons_succ] at hw
      simp only [List.set_cons_succ, List.map_cons, List.flatten_cons]
      exact ((List.Perm.append_left (claimedOf a) (ih j hj hw)).trans List.perm_middle)

/-- How replacing one worker changes the number of terminated workers. -/
lemma countP_set_isFinished (l : List WStat) (i : ℕ) (w : WStat) (h : i < l.length) :
    (l.set i w).countP isFinished + (if isFinished l[i] then 1 else 0)
      = l.countP isFinished + (if isFinished w then 1 else 0) := by
  induction l generalizing i with
  | nil => exact absurd h (by simp)
  | cons a t ih =>
    cases i with
    | zero =>
      simp only [List.set_cons_zero, List.countP_cons, List.getElem_cons_zero]
      omega
    | succ j =>
      have hj : j < t.length := by simpa using h
      simp only [List.set_cons_succ, List.countP_cons, List.getElem_cons_succ]
      have := ih j hj
      omega

/-- A run containing a worker that has not terminated has strictly fewer
terminated workers than workers. -/
lemma numFinished_lt (s : RunState) (i : ℕ) (h : i < s.workers.length)
    (hni : isFinished s.workers[i] = false) :
    numFinished s < s.workers.length := by
  unfold numFinished
  refine lt_of_le_of_ne (List.countP_le_length _) ?_
  intro hEq
  have := List.countP_eq_length.mp hEq s.workers[i] (List.getElem_mem h)
  rw [hni] at this
  exact Bool.noConfusion this

/-! ### The counter-protocol invariant -/

/-- CoreInv transfers to a state with the same claims whose counter
moved down by at most one. -/
lemma CoreInv_eqClaims {init : Int} {s t : RunState} (h : CoreInv init s)
    (heq : allClaimed t = allClaimed s)
    (h1 : s.counter - 1 ≤ t.counter) (h2 : t.counter ≤ s.counter) :
    CoreInv init t := by
  obtain ⟨hle, habove, hnodup, hbudget⟩ := h
  refine ⟨le_trans h2 hle, ?_, heq ▸ hnodup, ?_⟩
  · intro v hv
    exact lt_of_le_of_lt h2 (habove v (heq ▸ hv))
  · have : totalClaims t = totalClaims s := by
      unfold totalClaims
      rw [heq]
    rw [this]
    omega

/-- CoreInv transfers across a claiming decrement: the positive counter
value is recorded as a new claimed unit and the counter moves down one. -/
lemma CoreInv_newClaim {init : Int} {s t : RunState} (h : CoreInv init s)
    (hpos : 0 < s.counter)
    (hperm : List.Perm (allClaimed t) (s.counter :: allClaimed s))
    (hc : t.counter = s.counter - 1) :
    CoreInv init t := by
  obtain ⟨hle, habove, hnodup, hbudget⟩ := h
  have hnotmem : s.counter ∉ allClaimed s := fun hm => lt_irrefl _ (habove _ hm)
  refine ⟨by omega, ?_, ?_, ?_⟩
  · intro v hv
    rcases List.mem_cons.mp (hperm.mem_iff.mp hv) with rfl | hv'
    · omega
    · have := habove v hv'
      omega
  · exact hperm.symm.nodup (List.nodup_cons.mpr ⟨hnotmem, hnodup⟩)
  · have hlen : totalClaims t = totalClaims s + 1 := by
      have := hperm.length_eq
      simpa [totalClaims] using this
    rw [hlen, hc]
    push_cast
    omega

/-- Every run step preserves the full counter-protocol invariant and never
increases the counter, provided the initial counter is a 32-bit value and
the worker count is small enough that no decrement can ever find the
counter at -2 to the 31 (where the atomic decrement would wrap): the
counter stays above 1 - 2 to the 31 because each worker decrements once
per claim plus at most once to break. -/
lemma ClaimInv_step_mono (init : Int) (n : ℕ) (cfgs : ℕ → CtorEnv)
    (s : RunState) (ev : ℕ × Int)
    (hilt : init < 2 ^ 31)
    (hn : (n : Int) ≤ 2 ^ 31 + min init 0)
    (h : ClaimInv init n s) :
    ClaimInv init n (step cfgs s ev) ∧ (step cfgs s ev).counter ≤ s.counter := by
  obtain ⟨hlen, hbud2, hcore⟩ := h
  unfold step
  cases hw : s.workers[ev.1]? with
  | none => exact ⟨⟨hlen, hbud2, hcore⟩, le_refl _⟩
  | some w =>
    obtain ⟨hlt, hv⟩ := List.getElem?_eq_some_iff.mp hw
    unfold totalClaims allClaimed numFinished at hbud2
    dsimp only
    cases w with
    | initial =>
      have hcntF := countP_set_isFinished s.workers ev.1 (WStat.finished [] false) hlt
      have hcntL := countP_set_isFinished s.workers ev.1 (WStat.looping []) hlt
      rw [hv] at hcntF hcntL
      simp only [isFinished] at hcntF hcntL
      simp at hcntF hcntL
      cases hc : ctorErr (cfgs ev.1) with
      | some e =>
        simp only [stepWorker, hc]
        have heq := flatten_map_set_eq s.workers ev.1 (WStat.finished [] false) hlt
          (by rw [hv]; rfl)
        refine ⟨⟨by simp [hlen], ?_, CoreInv_eqClaims hcore heq (by first | omega | (dsimp only; omega))
          (by first | omega | (dsimp only; omega))⟩, by first | omega | (dsimp only; omega)⟩
        unfold totalClaims allClaimed numFinished
        dsimp only
        rw [heq, hcntF]
        push_cast
        omega
      | none =>
        simp only [stepWorker, hc]
        have heq := flatten_map_set_eq s.workers ev.1 (WStat.looping []) hlt
          (by rw [hv]; rfl)
        refine ⟨⟨by simp [hlen], ?_, CoreInv_eqClaims hcore heq (by first | omega | (dsimp only; omega))
          (by first | omega | (dsimp only; omega))⟩, by first | omega | (dsimp only; omega)⟩
        unfold totalClaims allClaimed numFinished
        dsimp only
        rw [heq, hcntL]
        omega
    | looping claimed =>
      obtain ⟨hle, habove, hnodup, hbud⟩ := hcore
      unfold totalClaims allClaimed at hbud
      have hnf := numFinished_lt s ev.1 hlt (by rw [hv]; rfl)
      unfold numFinished at hnf
      rw [hlen] at hnf
      have hclow : 1 - 2 ^ 31 ≤ s.counter := by omega
      have hwrap : wrap32 (s.counter - 1) = s.counter - 1 :=
        wrap32_eq (by omega) (by omega)
      by_cases hpos : s.counter ≤ 0
      · have hcnt := countP_set_isFinished s.workers ev.1 (WStat.finished claimed false) hlt
        rw [hv] at hcnt
        simp only [isFinished] at hcnt
        simp at hcnt
        simp only [stepWorker, if_pos hpos, hwrap]
        have heq := flatten_map_set_eq s.workers ev.1 (WStat.finished claimed false) hlt
          (by rw [hv]; rfl)
        refine ⟨⟨by simp [hlen], ?_,
          CoreInv_eqClaims ⟨hle, habove, hnodup, by unfold totalClaims allClaimed; omega⟩ heq
            (by first | omega | (dsimp only; omega)) (by first | omega | (dsimp only; omega))⟩, by first | omega | (dsimp only; omega)⟩
        unfold totalClaims allClaimed numFinished
        dsimp only
        rw [heq, hcnt]
        push_cast
        omega
      · by_cases hr : ev.2 < 0
        · have hcnt := countP_set_isFinished s.workers ev.1
            (WStat.finished (s.counter :: claimed) true) hlt
          rw [hv] at hcnt
          simp only [isFinished] at hcnt
          simp at hcnt
          simp only [stepWorker, if_neg hpos, if_pos hr, hwrap]
          have hperm := flatten_map_set_cons s.workers ev.1
            (WStat.finished (s.counter :: claimed) true) s.counter hlt (by rw [hv]; rfl)
          have hl2 : (((s.workers.set ev.1 (WStat.finished (s.counter :: claimed) true)).map
              claimedOf).flatten).length = ((s.workers.map claimedOf).flatten).length + 1 := by
            simpa using hperm.length_eq
          refine ⟨⟨by simp [hlen], ?_,
            CoreInv_newClaim ⟨hle, habove, hnodup, by unfold totalClaims allClaimed; omega⟩
              (by first | omega | (dsimp only; omega)) hperm rfl⟩, by first | omega | (dsimp only; omega)⟩
          unfold totalClaims allClaimed numFinished
          dsimp only
          rw [hl2, hcnt]
          push_cast
          omega
        · have hcnt := countP_set_isFinished s.workers ev.1
            (WStat.looping (s.counter :: claimed)) hlt
          rw [hv] at hcnt
          simp only [isFinished] at hcnt
          simp at hcnt
          simp only [stepWorker, if_neg hpos, if_neg hr, hwrap]
          have hperm := flatten_map_set_cons s.workers ev.1
            (WStat.looping (s.counter :: claimed)) s.counter hlt (by rw [hv]; rfl)
          have hl2 : (((s.workers.set ev.1 (WStat.looping (s.counter :: claimed))).map
              claimedOf).flatten).length = ((s.workers.map claimedOf).flatten).length + 1 := by
            simpa using hperm.length_eq
          refine ⟨⟨by simp [hlen], ?_,
            CoreInv_newClaim ⟨hle, habove, hnodup, by unfold totalClaims allClaimed; omega⟩
              (by first | omega | (dsimp only; omega)) hperm rfl⟩, by first | omega | (dsimp only; omega)⟩
          unfold totalClaims allClaimed numFinished
          dsimp only
          rw [hl2, hcnt]
          push_cast
          omega
    | finished claimed f =>
      have hcnt := countP_set_isFinished s.workers ev.1 (WStat.finished claimed f) hlt
      rw [hv] at hcnt
      simp only [isFinished] at hcnt
      simp at hcnt
      simp only [stepWorker]
      have heq := flatten_map_set_eq s.workers ev.1 (WStat.finished claimed f) hlt (by rw [hv])
      refine ⟨⟨by simp [hlen], ?_, CoreInv_eqClaims hcore heq (by first | omega | (dsimp only; omega))
        (by first | omega | (dsimp only; omega))⟩, by first | omega | (dsimp only; omega)⟩
      unfold totalClaims allClaimed numFinished
      dsimp only
      rw [heq, hcnt]
      omega

/-- Any schedule preserves the counter-protocol invariant and never
increases the counter, under the same no-wrap side conditions. -/
lemma ClaimInv_runFrom_mono (init : Int) (n : ℕ) (cfgs : ℕ → CtorEnv)
    (s : RunState) (events : List (ℕ × Int))
    (hilt : init < 2 ^ 31)
    (hn : (n : Int) ≤ 2 ^ 31 + min init 0)
    (h : ClaimInv init n s) :
    ClaimInv init n (runFrom cfgs s events) ∧ (runFrom cfgs s events).counter ≤ s.counter := by
  induction events generalizing s with
  | nil => exact ⟨h, le_refl _⟩
  | cons ev rest ih =>
    obtain ⟨h1, h2⟩ := ClaimInv_step_mono init n cfgs s ev hilt hn h
    obtain ⟨h3, h4⟩ := ih (step cfgs s ev) h1
    exact ⟨h3, le_trans h4 h2⟩

/-- No worker of the fresh initial state has claimed anything. -/
lemma allClaimed_initState (times n : ℕ) : allClaimed (initState times n) = [] := by
  unfold allClaimed initState
  rw [List.map_replicate]
  induction n with
  | zero => rfl
  | succ m ih =>
    rw [List.replicate_succ, List.flatten_cons, ih]
    rfl

/-- No worker of the fresh initial state has terminated. -/
lemma numFinished_initState (times n : ℕ) : numFinished (initState times n) = 0 := by
  unfold numFinished initState
  refine List.countP_eq_zero.mpr ?_
  intro a ha
  have := List.eq_of_mem_replicate ha
  subst this
  simp [isFinished]

/-- The fresh initial state satisfies the counter-protocol invariant for
its own counter value. -/
lemma ClaimInv_initState (times n : ℕ) :
    ClaimInv (initCounter times n) n (initState times n) := by
  have htc : totalClaims (initState times n) = 0 := by
    unfold totalClaims
    rw [allClaimed_initState]
    rfl
  refine ⟨by simp [initState], ?_, le_refl _, ?_, ?_, ?_⟩
  · rw [htc, numFinished_initState]
    have hco : (initState times n).counter = initCounter times n := rfl
    rw [hco]
    omega
  · intro v hv
    rw [allClaimed_initState] at hv
    exact absurd hv (List.not_mem_nil v)
  · rw [allClaimed_initState]
    exact List.nodup_nil
  · rw [htc]
    simp [initState]

/-! ### The exact-count invariant for failure-free runs -/

/-- Every step of a failure-free run (constructions succeed, conversion
calls return nonnegative values) preserves the exact-count invariant,
provided the initial counter is a nonnegative 32-bit value and there are
at most 2 to the 31 workers: the counter then stays above
1 - 2 to the 31, so no decrement ever wraps. -/
lemma CountInv_step (init : Int) (n : ℕ) (cfgs : ℕ → CtorEnv)
    (hcfg : ∀ i, i < n → ctorErr (cfgs i) = none)
    (hinit0 : 0 ≤ init) (hn31 : (n : Int) ≤ 2 ^ 31) (hilt : init < 2 ^ 31)
    (s : RunState) (ev : ℕ × Int) (hr : 0 ≤ ev.2)
    (h : CountInv init n s) : CountInv init n (step cfgs s ev) := by
  obtain ⟨hlen, hle, hbud2, hcount, hfin⟩ := h
  unfold totalClaims allClaimed numFinished at hbud2
  unfold totalClaims allClaimed at hcount
  unfold step
  cases hw : s.workers[ev.1]? with
  | none =>
    exact ⟨hlen, hle, by unfold totalClaims allClaimed numFinished; exact hbud2,
      by unfold totalClaims allClaimed; exact hcount, hfin⟩
  | some w =>
    obtain ⟨hlt, hv⟩ := List.getElem?_eq_some_iff.mp hw
    dsimp only
    cases w with
    | initial =>
      have hc : ctorErr (cfgs ev.1) = none := hcfg ev.1 (hlen ▸ hlt)
      have hcnt := countP_set_isFinished s.workers ev.1 (WStat.looping []) hlt
      rw [hv] at hcnt
      simp only [isFinished] at hcnt
      simp at hcnt
      simp only [stepWorker, hc]
      have heq := flatten_map_set_eq s.workers ev.1 (WStat.looping []) hlt (by rw [hv]; rfl)
      refine ⟨by simp [hlen], hle, ?_, ?_, ?_⟩
      · unfold totalClaims allClaimed numFinished
        dsimp only
        rw [heq, hcnt]
        exact hbud2
      · unfold totalClaims allClaimed
        dsimp only
        rw [heq]
        exact hcount
      · intro w' hw' hfinw
        rcases List.mem_or_eq_of_mem_set hw' with hmem | rfl
        · exact hfin w' hmem hfinw
        · exact absurd hfinw (by simp [isFinished])
    | looping claimed =>
      have hnf := numFinished_lt s ev.1 hlt (by rw [hv]; rfl)
      unfold numFinished at hnf
      rw [hlen] at hnf
      have hclow : 1 - 2 ^ 31 ≤ s.counter := by omega
      have hwrap : wrap32 (s.counter - 1) = s.counter - 1 :=
        wrap32_eq (by omega) (by omega)
      by_cases hpos : s.counter ≤ 0
      · have hcnt := countP_set_isFinished s.workers ev.1 (WStat.finished claimed false) hlt
        rw [hv] at hcnt
        simp only [isFinished] at hcnt
        simp at hcnt
        simp only [stepWorker, if_pos hpos, hwrap]
        have heq := flatten_map_set_eq s.workers ev.1 (WStat.finished claimed false) hlt
          (by rw [hv]; rfl)
        refine ⟨by simp [hlen], by first | omega | (dsimp only; omega), ?_, ?_, ?_⟩
        · unfold totalClaims allClaimed numFinished
          dsimp only
          rw [heq, hcnt]
          push_cast
          omega
        · unfold totalClaims allClaimed
          dsimp only
          rw [heq]
          omega
        · intro w' hw' hfinw
          first | omega | (dsimp only; omega)
      · have hrneg : ¬ ev.2 < 0 := by omega
        have hcnt := countP_set_isFinished s.workers ev.1
          (WStat.looping (s.counter :: claimed)) hlt
        rw [hv] at hcnt
        simp only [isFinished] at hcnt
        simp at hcnt
        simp only [stepWorker, if_neg hpos, if_neg hrneg, hwrap]
        have hperm := flatten_map_set_cons s.workers ev.1
          (WStat.looping (s.counter :: claimed)) s.counter hlt (by rw [hv]; rfl)
        have hl : (((s.workers.set ev.1 (WStat.looping (s.counter :: claimed))).map
            claimedOf).flatten).length = ((s.workers.map claimedOf).flatten).length + 1 := by
          simpa using hperm.length_eq
        refine ⟨by simp [hlen], by first | omega | (dsimp only; omega), ?_, ?_, ?_⟩
        · unfold totalClaims allClaimed numFinished
          dsimp only
          rw [hl, hcnt]
          push_cast
          omega
        · unfold totalClaims allClaimed
          dsimp only
          rw [hl]
          push_cast
          omega
        · intro w' hw' hfinw
          rcases List.mem_or_eq_of_mem_set hw' with hmem | rfl
          · have := hfin w' hmem hfinw
            first | omega | (dsimp only; omega)
          · exact absurd hfinw (by simp [isFinished])
    | finished claimed f =>
      have hcnt := countP_set_isFinished s.workers ev.1 (WStat.finished claimed f) hlt
      rw [hv] at hcnt
      simp only [isFinished] at hcnt
      simp at hcnt
      simp only [stepWorker]
      have heq := flatten_map_set_eq s.workers ev.1 (WStat.finished claimed f) hlt (by rw [hv])
      have hcneg : s.counter < 0 := by
        refine hfin (.finished claimed f) ?_ rfl
        rw [← hv]
        exact List.getElem_mem hlt
      refine ⟨by simp [hlen], hle, ?_, ?_, ?_⟩
      · unfold totalClaims allClaimed numFinished
        dsimp only
        rw [heq, hcnt]
        exact hbud2
      · unfold totalClaims allClaimed
        dsimp only
        rw [heq]
        exact hcount
      · intro w' hw' hfinw
        exact hcneg

/-- Any failure-free schedule preserves the exact-count invariant, under
the same no-wrap side conditions. -/
lemma CountInv_runFrom (init : Int) (n : ℕ) (cfgs : ℕ → CtorEnv)
    (hcfg : ∀ i, i < n → ctorErr (cfgs i) = none)
    (hinit0 : 0 ≤ init) (hn31 : (n : Int) ≤ 2 ^ 31) (hilt : init < 2 ^ 31)
    (s : RunState) (events : List (ℕ × Int))
    (hev : ∀ ev ∈ events, 0 ≤ ev.2)
    (h : CountInv init n s) : CountInv init n (runFrom cfgs s events) := by
  induction events generalizing s with
  | nil => exact h
  | cons ev rest ih =>
    exact ih (step cfgs s ev)
      (fun e he => hev e (List.mem_cons_of_mem ev he))
      (CountInv_step init n cfgs hcfg hinit0 hn31 hilt s ev
        (hev ev (List.mem_cons_self ev rest)) h)

/-- The fresh initial state satisfies the exact-count invariant. -/
lemma CountInv_initState (times n : ℕ) :
    CountInv (initCounter times n) n (initState times n) := by
  have h0 : totalClaims (initState times n) = 0 := by
    unfold totalClaims
    rw [allClaimed_initState]
    rfl
  have hco : (initState times n).counter = initCounter times n := rfl
  refine ⟨by simp [initState], le_refl _, ?_, ?_, ?_⟩
  · rw [h0, numFinished_initState, hco]
    omega
  · rw [h0, hco]
    omega
  · intro w hw hfinw
    have := List.eq_of_mem_replicate (by simpa [initState] using hw)
    subst this
    exact absurd hfinw (by simp [isFinished])

/-! ### Lemmas about the sweep driver -/

/-- With a nonzero fixed thread count the loop bounds coincide and the
sweep visits exactly that one thread count. -/
lemma threadCounts_fixed (t hc : ℕ) (ht : t ≠ 0) : threadCounts t hc = [t] := by
  unfold threadCounts threadMin threadMax
  rw [if_pos ht, if_pos ht]
  have h1 : t + 1 - t = 1 := by omega
  rw [h1, List.range'_one]

/-- With thread count zero or absent the sweep visits 1 up to the
hardware concurrency. -/
lemma threadCounts_range (hc : ℕ) : threadCounts 0 hc = List.range' 1 hc := by
  unfold threadCounts threadMin threadMax
  simp

/-- If every visited run succeeds, the sweep loop emits one report block
per thread count, in order, and does not abort. -/
lemma sweepLoop_ok (times : ℕ) (envs : ℕ → RunEnv) (l : List ℕ)
    (h : ∀ n ∈ l, (runFinal times n (envs n)).error = 0) :
    sweepLoop times envs l = ⟨l.map (blockFor times envs), false, l⟩ := by
  induction l with
  | nil => rfl
  | cons n rest ih =>
    have hn := h n (List.mem_cons_self n rest)
    have hrest := ih (fun m hm => h m (List.mem_cons_of_mem n hm))
    simp [sweepLoop, hn, hrest]

/-- If the runs before k succeed and the run at k fails, the sweep loop
emits the report blocks of the runs before k, then the failure notice, and
aborts without visiting anything after k. -/
lemma sweepLoop_fail (times : ℕ) (envs : ℕ → RunEnv) (l1 : List ℕ) (k : ℕ) (l2 : List ℕ)
    (hok : ∀ n ∈ l1, (runFinal times n (envs n)).error = 0)
    (hk : (runFinal times k (envs k)).error ≠ 0) :
    sweepLoop times envs (l1 ++ k :: l2) =
      ⟨l1.map (blockFor times envs) ++
        [.failureNotice (runFinal times k (envs k)).error], true, l1 ++ [k]⟩ := by
  induction l1 with
  | nil => simp [sweepLoop, hk]
  | cons n rest ih =>
    have hn := hok n (List.mem_cons_self n rest)
    have hrest := ih (fun m hm => hok m (List.mem_cons_of_mem n hm))
    simp [sweepLoop, hn, hrest]

/-- Splitting the visited range 1..M at a failing thread count k. -/
lemma range'_split (k M : ℕ) (h1 : 1 ≤ k) (h2 : k ≤ M) :
    List.range' 1 M = List.range' 1 (k - 1) ++ k :: List.range' (k + 1) (M - k) := by
  have h := List.range'_append 1 (k - 1) (M - k + 1) 1
  have e1 : 1 + 1 * (k - 1) = k := by omega
  have e2 : M - k + 1 + (k - 1) = M := by omega
  rw [e1, e2] at h
  rw [← h, List.range'_succ]

/-! ### Per-worker invariants -/

/-- Reading back, with a default, the slot that was just written. -/
lemma getD_set_self (l : List WStat) (i : ℕ) (x : WStat) (h : i < l.length) :
    (l.set i x).getD i WStat.initial = x := by
  rw [List.getD_eq_getElem (l.set i x) WStat.initial (by simpa using h)]
  exact List.getElem_set_self (by simpa using h)

/-- In a run whose worker i cannot construct its conversion context,
worker i is forever either untouched or terminated with an empty claim
list, and once it has terminated the shared error flag is nonzero. -/
lemma ctorFail_worker (cfgs : ℕ → CtorEnv) (i : ℕ) (e : Int)
    (hctor : ctorErr (cfgs i) = some e)
    (s : RunState) (events : List (ℕ × Int))
    (h : s.workers.getD i .initial = WStat.initial ∨
      (s.workers.getD i .initial = WStat.finished [] false ∧ s.error ≠ 0)) :
    (runFrom cfgs s events).workers.getD i .initial = WStat.initial ∨
    ((runFrom cfgs s events).workers.getD i .initial = WStat.finished [] false ∧
      (runFrom cfgs s events).error ≠ 0) := by
  induction events generalizing s with
  | nil => exact h
  | cons ev rest ih =>
    refine ih (step cfgs s ev) ?_
    unfold step
    cases hw : s.workers[ev.1]? with
    | none => exact h
    | some w =>
      obtain ⟨hlt, hv⟩ := List.getElem?_eq_some_iff.mp hw
      dsimp only
      by_cases hij : ev.1 = i
      · subst hij
        have hgd : s.workers.getD ev.1 .initial = w := by
          rw [List.getD_eq_getElem s.workers .initial hlt, hv]
        rcases h with hini | ⟨hfin, herr⟩
        · rw [hgd] at hini
          subst hini
          simp only [stepWorker, hctor]
          right
          constructor
          · exact getD_set_self s.workers ev.1 _ hlt
          · split
            · rename_i he0
              exact absurd he0 (ctorErr_ne_zero hctor)
            · exact ctorErr_ne_zero hctor
        · rw [hgd] at hfin
          subst hfin
          simp only [stepWorker]
          right
          constructor
          · exact getD_set_self s.workers ev.1 _ hlt
          · exact herr
      · have hgd : ∀ x : WStat, (s.workers.set ev.1 x).getD i .initial =
            s.workers.getD i .initial := by
          intro x
          rw [List.getD_eq_getElem?_getD, List.getD_eq_getElem?_getD,
            List.getElem?_set_ne hij]
        rcases h with hini | ⟨hfin, herr⟩
        · left
          rw [hgd, hini]
        · right
          exact ⟨by rw [hgd, hfin], stepWorker_error_ne _ _ _ _ _ herr⟩

/-- A run that starts with a nonpositive 32-bit counter value init, whose
construction environments all succeed and whose worker count is at most
2 to the 31 + init, never performs a conversion call, never touches the
error flag, and keeps its counter nonpositive: under that worker bound the
counter stays above 1 - 2 to the 31 (each worker decrements at most once,
to break), so no decrement ever wraps the counter back to a positive
value. -/
lemma nonpos_run_no_claims (init : Int) (n : ℕ) (cfgs : ℕ → CtorEnv)
    (hcfg : ∀ i, i < n → ctorErr (cfgs i) = none)
    (hn10 : (n : Int) ≤ 2 ^ 31 + init)
    (s : RunState) (events : List (ℕ × Int))
    (h : s.workers.length = n ∧ s.counter ≤ 0 ∧
      init - s.counter ≤ (numFinished s : Int) ∧
      allClaimed s = [] ∧ s.error = 0) :
    (runFrom cfgs s events).workers.length = n ∧
    (runFrom cfgs s events).counter ≤ 0 ∧
    init - (runFrom cfgs s events).counter ≤ (numFinished (runFrom cfgs s events) : Int) ∧
    allClaimed (runFrom cfgs s events) = [] ∧
    (runFrom cfgs s events).error = 0 := by
  induction events generalizing s with
  | nil => exact h
  | cons ev rest ih =>
    refine ih (step cfgs s ev) ?_
    obtain ⟨hlen, hcnt0, hbud2, hclaims, herr⟩ := h
    unfold allClaimed at hclaims
    unfold numFinished at hbud2
    unfold step
    cases hw : s.workers[ev.1]? with
    | none =>
      exact ⟨hlen, hcnt0, by unfold numFinished; exact hbud2,
        by unfold allClaimed; exact hclaims, herr⟩
    | some w =>
      obtain ⟨hlt, hv⟩ := List.getElem?_eq_some_iff.mp hw
      dsimp only
      cases w with
      | initial =>
        have hc : ctorErr (cfgs ev.1) = none := hcfg ev.1 (hlen ▸ hlt)
        have hcnt := countP_set_isFinished s.workers ev.1 (WStat.looping []) hlt
        rw [hv] at hcnt
        simp only [isFinished] at hcnt
        simp at hcnt
        simp only [stepWorker, hc]
        refine ⟨by simp [hlen], hcnt0, ?_, ?_, herr⟩
        · unfold numFinished
          dsimp only
          rw [hcnt]
          exact hbud2
        · unfold allClaimed
          dsimp only
          rw [flatten_map_set_eq s.workers ev.1 _ hlt (by rw [hv]; rfl)]
          exact hclaims
      | looping claimed =>
        have hnf := numFinished_lt s ev.1 hlt (by rw [hv]; rfl)
        unfold numFinished at hnf
        rw [hlen] at hnf
        have hwrap : wrap32 (s.counter - 1) = s.counter - 1 :=
          wrap32_eq (by omega) (by omega)
        have hcnt := countP_set_isFinished s.workers ev.1 (WStat.finished claimed false) hlt
        rw [hv] at hcnt
        simp only [isFinished] at hcnt
        simp at hcnt
        simp only [stepWorker, if_pos hcnt0, hwrap]
        refine ⟨by simp [hlen], by first | omega | (dsimp only; omega), ?_, ?_, herr⟩
        · unfold numFinished
          dsimp only
          rw [hcnt]
          push_cast
          omega
        · unfold allClaimed
          dsimp only
          rw [flatten_map_set_eq s.workers ev.1 _ hlt (by rw [hv]; rfl)]
          exact hclaims
      | finished claimed f =>
        have hcnt := countP_set_isFinished s.workers ev.1 (WStat.finished claimed f) hlt
        rw [hv] at hcnt
        simp only [isFinished] at hcnt
        simp at hcnt
        simp only [stepWorker]
        refine ⟨by simp [hlen], hcnt0, ?_, ?_, herr⟩
        · unfold numFinished
          dsimp only
          rw [hcnt]
          exact hbud2
        · unfold allClaimed
          dsimp only
          rw [flatten_map_set_eq s.workers ev.1 _ hlt (by rw [hv])]
          exact hclaims

/-! ### The claims -/

/-- C1: the code evaluated at the failing input — construction fully
succeeded, the counter stood at 5, and the first sws_scale call
returns -1. The worker does stop its claim loop immediately (only the unit
at 5 was claimed; the rest of the trace is never consumed; no retry), but
the value it stores to the shared ErrorFlag is none: the goto at line 72
reaches the fail label with err still 0 (the value left by the successful
av_frame_get_buffer at line 64), so the conditional store at lines 77-78
is skipped and the ErrorFlag keeps its initial zero — contradicting the
claim that a failing conversion call sets the ErrorFlag to a nonzero
value. -/
theorem C1_conversion_failure_leaves_flag_unset :
    thread_target okCtor [(5, -1), (4, 1)] =
      some { errAtFail := 0, stored := none, claimed := [5], convFailed := true,
             heldAtFail := ⟨true, true, true⟩, heldFinal := ⟨false, false, false⟩ } := by
  rfl

/-- C2 (amended): for every thread count n with 1 ≤ n ≤ 2 to the 31 (more
threads than that can never be spawned and joined by a real execution) and
iterations-per-thread value with times * n below 2 to the 31 — so that the
32-bit cast at line 97 preserves the product — a complete run in which no
failure occurs (all constructions succeed and every scheduled conversion
call returns a nonnegative status) performs exactly times * n conversion
calls in aggregate across all workers, never more and never fewer. Under
these bounds the counter never reaches -2 to the 31, so the wrapping
atomic decrement behaves like plain subtraction. -/
theorem C2_exact_total_conversions (times n : ℕ) (env : RunEnv)
    (hn : 1 ≤ n) (hn31 : n ≤ 2 ^ 31) (hbound : times * n < 2 ^ 31)
    (hctor : ∀ i, i < n → ctorErr (env.cfgs i) = none)
    (hconv : ∀ ev ∈ env.events, 0 ≤ ev.2)
    (hfin : allFinished (runFinal times n env) = true) :
    totalClaims (runFinal times n env) = times * n := by
  have hinit : initCounter times n = ((times * n : ℕ) : Int) := i32cast_of_lt hbound
  have hinit0 : 0 ≤ initCounter times n := by
    rw [hinit]
    exact Int.ofNat_nonneg _
  have hilt : initCounter times n < 2 ^ 31 := (i32cast_range (times * n)).2
  have hinv := CountInv_runFrom (initCounter times n) n env.cfgs hctor hinit0
    (by exact_mod_cast hn31) hilt (initState times n) env.events hconv
    (CountInv_initState times n)
  have hrf : runFrom env.cfgs (initState times n) env.events = runFinal times n env := rfl
  rw [hrf] at hinv
  obtain ⟨hlen, hle, hbud2, hcount, hfin2⟩ := hinv
  have hne : (runFinal times n env).workers ≠ [] := by
    intro hnil
    rw [hnil] at hlen
    simp at hlen
    omega
  obtain ⟨w, hwmem⟩ := List.exists_mem_of_ne_nil _ hne
  have hfw : isFinished w = true := List.all_eq_true.mp hfin w hwmem
  have hneg : (runFinal times n env).counter < 0 := hfin2 w hwmem hfw
  rw [hinit] at hcount hle
  set K := times * n with hK
  omega

/-- C2 witness: at times = 2 and n = 1 with the concrete failure-free
complete schedule runEnvA, the run performs exactly 2 = times * n
conversion calls. -/
theorem C2_exact_total_conversions_witness :
    totalClaims (runFinal 2 1 runEnvA) = 2 * 1 :=
  C2_exact_total_conversions 2 1 runEnvA (by decide) (by decide) (by decide)
    (fun i _ => rfl) (by decide) (by decide)

/-- C2 counterexample: at times = 2 to the 31 and n = 1 the initial
counter is the wrapped cast, which is negative, so this complete run in
which no failure occurs — construction succeeded, every scheduled
conversion result nonnegative, error flag still clear — performs 0
conversion calls, not times * n = 2 to the 31: the claim quantified over
all n ≥ 1 and all iteration counts fails at this input. -/
theorem C2_counterexample :
    ctorErr (overflowEnv.cfgs 0) = none ∧
    (overflowEnv.events.all fun ev => decide (0 ≤ ev.2)) = true ∧
    allFinished (runFinal (2 ^ 31) 1 overflowEnv) = true ∧
    (runFinal (2 ^ 31) 1 overflowEnv).error = 0 ∧
    totalClaims (runFinal (2 ^ 31) 1 overflowEnv) = 0 ∧
    2 ^ 31 * 1 ≠ 0 := by
  decide

/-- C3 (amended): within one run whose thread count n satisfies
n ≤ 2 to the 31 + min(initial, 0) — which holds for every realizable
configuration except those whose initial counter is at or near
-2 to the 31 with enough workers to reach it, such as the wrapped cast
-2 to the 31 itself — the shared counter is monotonically non-increasing
over its whole lifetime (continuing the schedule in any way can only lower
it), no work unit is ever claimed twice — neither by two workers nor twice
by one — and, whenever the initial counter value is nonnegative, the
aggregate number of successful claims never exceeds that initial value.
Without the bound the atomic decrement can wrap the counter from
-2 to the 31 up to 2 to the 31 minus 1, an increase, after which further
units are claimed. -/
theorem C3_counter_invariants (times n : ℕ) (env : RunEnv) (more : List (ℕ × Int))
    (hn : (n : Int) ≤ 2 ^ 31 + min (initCounter times n) 0) :
    (runFrom env.cfgs (runFinal times n env) more).counter ≤
      (runFinal times n env).counter ∧
    (allClaimed (runFinal times n env)).Nodup ∧
    (0 ≤ initCounter times n →
      (totalClaims (runFinal times n env) : Int) ≤ initCounter times n) := by
  have hilt : initCounter times n < 2 ^ 31 := (i32cast_range (times * n)).2
  have h1 := ClaimInv_runFrom_mono (initCounter times n) n env.cfgs (initState times n)
    env.events hilt hn (ClaimInv_initState times n)
  have hrf : runFrom env.cfgs (initState times n) env.events = runFinal times n env := rfl
  rw [hrf] at h1
  have h2 := ClaimInv_runFrom_mono (initCounter times n) n env.cfgs (runFinal times n env)
    more hilt hn h1.1
  obtain ⟨hlen, hbud2, hle, habove, hnodup, hbud⟩ := h1.1
  refine ⟨h2.2, hnodup, ?_⟩
  intro hpos
  omega

/-- C3 counterexample: at times = 2 to the 30 and n = 2 the initial
counter is the wrapped cast -2 to the 31. Worker 0's break decrement then
wraps the counter from -2 to the 31 up to 2 to the 31 minus 1 — the
shared counter increases mid-run — and worker 1 subsequently claims a work
unit although the counter had already reached zero or below, so neither
the monotone non-increase nor the claims bound of the claim holds of the
code at this input. -/
theorem C3_counterexample :
    initCounter (2 ^ 30) 2 = -2 ^ 31 ∧
    (runFrom wrapEnv.cfgs (initState (2 ^ 30) 2) [(0, 1), (1, 1)]).counter = -2 ^ 31 ∧
    (runFrom wrapEnv.cfgs (initState (2 ^ 30) 2) [(0, 1), (1, 1), (0, 1)]).counter
      = 2 ^ 31 - 1 ∧
    ¬ (runFrom wrapEnv.cfgs (initState (2 ^ 30) 2) [(0, 1), (1, 1), (0, 1)]).counter ≤
        (runFrom wrapEnv.cfgs (initState (2 ^ 30) 2) [(0, 1), (1, 1)]).counter ∧
    totalClaims (runFinal (2 ^ 30) 2 wrapEnv) = 1 := by
  decide

/-- C3 witness: the invariants evaluated on the concrete run runEnvA at
times = 2, n = 1, continued by one further event. -/
theorem C3_counter_invariants_witness :
    (runFrom runEnvA.cfgs (runFinal 2 1 runEnvA) [(0, 1)]).counter ≤
      (runFinal 2 1 runEnvA).counter ∧
    (allClaimed (runFinal 2 1 runEnvA)).Nodup ∧
    (totalClaims (runFinal 2 1 runEnvA) : Int) ≤ initCounter 2 1 :=
  ⟨(C3_counter_invariants 2 1 runEnvA [(0, 1)] (by decide)).1,
   (C3_counter_invariants 2 1 runEnvA [(0, 1)] (by decide)).2.1,
   (C3_counter_invariants 2 1 runEnvA [(0, 1)] (by decide)).2.2 (by decide)⟩

/-- C4: if worker i of the run at thread count n fails construction of its
conversion context or buffers (ctorErr yields some e), then once all
workers have terminated the shared ErrorFlag is nonzero, worker i
performed no conversion call, and the sweep driver invoked with that fixed
thread count aborts, emitting the failure notice instead of a throughput
report — regardless of what any other worker did. -/
theorem C4_construction_failure_fails_run (times n hc : ℕ) (envs : ℕ → RunEnv)
    (i : ℕ) (e : Int) (hi : i < n)
    (hctor : ctorErr ((envs n).cfgs i) = some e)
    (hfin : allFinished (runFinal times n (envs n)) = true) :
    (runFinal times n (envs n)).error ≠ 0 ∧
    claimedOf ((runFinal times n (envs n)).workers.getD i .initial) = [] ∧
    (execute times n hc envs).aborted = true ∧
    (execute times n hc envs).outputs =
      [.header, .failureNotice (runFinal times n (envs n)).error] := by
  have hstart : (initState times n).workers.getD i .initial = WStat.initial := by
    rw [List.getD_eq_getElem _ _ (by simpa [initState] using hi)]
    simp [initState]
  have hw := ctorFail_worker (envs n).cfgs i e hctor (initState times n) (envs n).events
    (Or.inl hstart)
  have hrf : runFrom (envs n).cfgs (initState times n) (envs n).events
      = runFinal times n (envs n) := rfl
  rw [hrf] at hw
  have hlen : (runFinal times n (envs n)).workers.length = n := by
    have h := runFrom_workers_length (envs n).cfgs (initState times n) (envs n).events
    rw [hrf] at h
    simpa [initState] using h
  have hlt : i < (runFinal times n (envs n)).workers.length := by omega
  have hgd : (runFinal times n (envs n)).workers.getD i .initial
      = (runFinal times n (envs n)).workers[i] :=
    List.getD_eq_getElem _ _ hlt
  have hifin : isFinished (runFinal times n (envs n)).workers[i] = true :=
    List.all_eq_true.mp hfin _ (List.getElem_mem hlt)
  rcases hw with hini | ⟨hfw, herr⟩
  · rw [hgd] at hini
    rw [hini] at hifin
    exact absurd hifin (by simp [isFinished])
  · have hclaims : claimedOf ((runFinal times n (envs n)).workers.getD i .initial) = [] := by
      rw [hfw]
      rfl
    have hn0 : n ≠ 0 := by omega
    have hsw := sweepLoop_fail times envs [] n []
      (fun m hm => absurd hm (List.not_mem_nil m)) herr
    rw [show ([] : List ℕ) ++ n :: [] = [n] from rfl] at hsw
    have hexec : execute times n hc envs =
        ⟨[.header, .failureNotice (runFinal times n (envs n)).error], true, [n]⟩ := by
      unfold execute
      rw [threadCounts_fixed n hc hn0, hsw]
      rfl
    exact ⟨herr, hclaims, by rw [hexec], by rw [hexec]⟩

/-- C4 witness: the single worker of the run at times = 1, n = 1 fails
construction (null context, error value 1); the run ends with a nonzero
flag, no claims by that worker, and the fixed-thread-count sweep aborts
with the failure notice. -/
theorem C4_construction_failure_fails_run_witness :
    (runFinal 1 1 (envsFail 1)).error ≠ 0 ∧
    claimedOf ((runFinal 1 1 (envsFail 1)).workers.getD 0 .initial) = [] ∧
    (execute 1 1 0 envsFail).aborted = true ∧
    (execute 1 1 0 envsFail).outputs =
      [.header, .failureNotice (runFinal 1 1 (envsFail 1)).error] :=
  C4_construction_failure_fails_run 1 1 0 envsFail 0 1 (by decide) (by decide) (by decide)

/-- C5: the sweep driver with a fixed nonzero thread count T attempts
exactly the one run at T — emitting exactly one report block when it
succeeds, and the failure notice plus an abort when it fails; invoked with
thread count zero it attempts the runs 1, 2, ..., M in ascending order,
where M is the reported hardware concurrency, emitting one report block
per run when all succeed; and when the first failure occurs at thread
count k it stops immediately, having emitted report blocks exactly for the
runs strictly before k plus the failure notice. -/
theorem C5_sweep_driver :
    (∀ (times hc : ℕ) (envs : ℕ → RunEnv) (T : ℕ), T ≠ 0 →
      threadCounts T hc = [T] ∧
      ((runFinal times T (envs T)).error = 0 →
        execute times T hc envs = ⟨[.header, blockFor times envs T], false, [T]⟩) ∧
      ((runFinal times T (envs T)).error ≠ 0 →
        execute times T hc envs =
          ⟨[.header, .failureNotice (runFinal times T (envs T)).error], true, [T]⟩)) ∧
    (∀ (times M : ℕ) (envs : ℕ → RunEnv),
      (∀ n, 1 ≤ n → n ≤ M → (runFinal times n (envs n)).error = 0) →
      execute times 0 M envs =
        ⟨.header :: (List.range' 1 M).map (blockFor times envs), false,
          List.range' 1 M⟩) ∧
    (∀ (times M : ℕ) (envs : ℕ → RunEnv) (k : ℕ), 1 ≤ k → k ≤ M →
      (∀ n, 1 ≤ n → n < k → (runFinal times n (envs n)).error = 0) →
      (runFinal times k (envs k)).error ≠ 0 →
      execute times 0 M envs =
        ⟨.header :: ((List.range' 1 (k - 1)).map (blockFor times envs) ++
            [.failureNotice (runFinal times k (envs k)).error]), true,
          List.range' 1 (k - 1) ++ [k]⟩) := by
  refine ⟨?_, ?_, ?_⟩
  · intro times hc envs T hT
    refine ⟨threadCounts_fixed T hc hT, ?_, ?_⟩
    · intro hok
      have hsw := sweepLoop_ok times envs [T]
        (fun m hm => by rw [List.mem_singleton.mp hm]; exact hok)
      unfold execute
      rw [threadCounts_fixed T hc hT, hsw]
      rfl
    · intro herr
      have hsw := sweepLoop_fail times envs [] T []
        (fun m hm => absurd hm (List.not_mem_nil m)) herr
      rw [show ([] : List ℕ) ++ T :: [] = [T] from rfl] at hsw
      unfold execute
      rw [threadCounts_fixed T hc hT, hsw]
      rfl
  · intro times M envs hok
    have hsw := sweepLoop_ok times envs (List.range' 1 M) ?_
    · unfold execute
      rw [threadCounts_range M, hsw]
    · intro m hm
      obtain ⟨h1, h2⟩ := List.mem_range'_1.mp hm
      exact hok m h1 (by omega)
  · intro times M envs k hk1 hkM hok hkerr
    have hsw := sweepLoop_fail times envs (List.range' 1 (k - 1)) k
      (List.range' (k + 1) (M - k)) ?_ hkerr
    · unfold execute
      rw [threadCounts_range M, range'_split k M hk1 hkM, hsw]
    · intro m hm
      obtain ⟨h1, h2⟩ := List.mem_range'_1.mp hm
      exact hok m h1 (by omega)

/-- C5 witness: the three behaviors at concrete inputs — a successful
fixed run at T = 2; a full successful sweep with hardware concurrency 1;
and a sweep with hardware concurrency 2 whose run at k = 2 fails, emitting
the block for run 1, the failure notice, and aborting. -/
theorem C5_sweep_driver_witness :
    execute 2 2 0 envsA = ⟨[.header, blockFor 2 envsA 2], false, [2]⟩ ∧
    execute 2 0 1 envsA =
      ⟨.header :: (List.range' 1 1).map (blockFor 2 envsA), false, List.range' 1 1⟩ ∧
    execute 1 0 2 envsMixed =
      ⟨.header :: ((List.range' 1 1).map (blockFor 1 envsMixed) ++
          [.failureNotice (runFinal 1 2 (envsMixed 2)).error]), true,
        List.range' 1 1 ++ [2]⟩ :=
  ⟨((C5_sweep_driver.1 2 0 envsA 2 (by decide)).2.1) (by decide),
   C5_sweep_driver.2.1 2 1 envsA
     (fun n h1 h2 => by
       have hn : n = 1 := by omega
       rw [hn]
       decide),
   C5_sweep_driver.2.2 1 2 envsMixed 2 (by decide) (by decide)
     (fun n h1 h2 => by
       have hn : n = 1 := by omega
       rw [hn]
       decide)
     (by decide)⟩

/-- C6: within one run the ErrorFlag starts at zero, and from any point of
the schedule at which it has become nonzero every continuation of the
schedule leaves it nonzero — no operation ever clears it mid-run; and
every run starts from a fresh state whose ErrorFlag is zero and whose
counter is the freshly computed initial value, never one reused from an
earlier thread count. -/
theorem C6_error_flag_monotone (times n : ℕ) (env : RunEnv) (more : List (ℕ × Int)) :
    (initState times n).error = 0 ∧
    (initState times n).counter = initCounter times n ∧
    ((runFinal times n env).error ≠ 0 →
      (runFrom env.cfgs (initState times n) (env.events ++ more)).error ≠ 0) := by
  refine ⟨rfl, rfl, ?_⟩
  intro h
  rw [runFrom_append]
  exact runFrom_error_ne env.cfgs _ more h

/-- C6 witness: on the concrete failing run ctorFailEnv at times = 1,
n = 1, the flag set by the construction failure is still nonzero after one
further scheduled event. -/
theorem C6_error_flag_monotone_witness :
    (initState 1 1).error = 0 ∧
    (initState 1 1).counter = initCounter 1 1 ∧
    (runFrom ctorFailEnv.cfgs (initState 1 1) (ctorFailEnv.events ++ [(0, 0)])).error ≠ 0 :=
  ⟨(C6_error_flag_monotone 1 1 ctorFailEnv [(0, 0)]).1,
   (C6_error_flag_monotone 1 1 ctorFailEnv [(0, 0)]).2.1,
   (C6_error_flag_monotone 1 1 ctorFailEnv [(0, 0)]).2.2 (by decide)⟩

/-- C7 counterexample: at total = 4 and elapsed = -2 — numbers on which
rational and IEEE double arithmetic agree exactly — the code's report is
the performed quotient some (-2), while the guarded policy the claim
describes mandates the sentinel none; the two disagree, so execute does
not guard the division against zero-or-negative elapsed time. -/
theorem C7_counterexample :
    fpsReported 4 (-2) = some (-2) ∧
    fpsGuardedSpec 4 (-2) = none ∧
    fpsReported 4 (-2) ≠ fpsGuardedSpec 4 (-2) := by
  have h1 : fpsReported 4 (-2) = some (-2) := by norm_num [fpsReported, fps]
  have h2 : fpsGuardedSpec 4 (-2) = none := by norm_num [fpsGuardedSpec]
  refine ⟨h1, h2, ?_⟩
  rw [h1, h2]
  exact fun hcontra => Option.noConfusion hcontra

/-- C7 (amended): execute performs the floating-point division of
line 120 unconditionally; there is no guard on zero or negative elapsed
time and no sentinel: for every negative elapsed value the reported
throughput is the plain quotient, which differs from the guarded policy
of the spec. -/
theorem C7_no_elapsed_guard (total e : ℚ) (he : e < 0) :
    fpsReported total e = some (total / e) ∧
    fpsGuardedSpec total e = none ∧
    fpsReported total e ≠ fpsGuardedSpec total e := by
  have hg : fpsGuardedSpec total e = none := by
    unfold fpsGuardedSpec
    rw [if_pos (le_of_lt he)]
  refine ⟨rfl, hg, ?_⟩
  rw [hg]
  exact fun hcontra => Option.noConfusion hcontra

/-- C7 witness: the amended statement evaluated at total = 4,
elapsed = -2. -/
theorem C7_no_elapsed_guard_witness :
    fpsReported 4 (-2) = some (4 / (-2)) ∧
    fpsGuardedSpec 4 (-2) = none ∧
    fpsReported 4 (-2) ≠ fpsGuardedSpec 4 (-2) :=
  C7_no_elapsed_guard 4 (-2) (by norm_num)

/-- C8: on every exit path of thread_target — failure of any of the five
construction calls, normal completion after claim exhaustion, or
conversion-call failure — the exit record shows the conversion context and
both frame buffers released by the cleanup epilogue. -/
theorem C8_resources_released (c : CtorEnv) (trace : List (Int × Int)) (res : TTResult)
    (h : thread_target c trace = some res) :
    res.heldFinal = ⟨false, false, false⟩ := by
  unfold thread_target at h
  split_ifs at h
  all_goals try (injection h with h; rw [← h]; rfl)
  obtain ⟨x, hx, hres⟩ := Option.map_eq_some'.mp h
  rw [← hres]
  rfl

/-- C8 witness: a worker whose construction succeeds and whose first
decrement observes a nonpositive counter exits normally with all three
resources released. -/
theorem C8_resources_released_witness :
    thread_target okCtor [(0, 0)] = some (ttExit 0 [] false ⟨true, true, true⟩) ∧
    (ttExit 0 [] false ⟨true, true, true⟩).heldFinal = ⟨false, false, false⟩ :=
  ⟨rfl, C8_resources_released okCtor [(0, 0)] (ttExit 0 [] false ⟨true, true, true⟩) rfl⟩

/-- C9: with the threads option zero or absent and a reported hardware
concurrency of zero, the loop bounds are 1 and 0, so the sweep body runs
zero times: the program emits only the header line, performs no run and no
conversion call, and the process exits with status 0. -/
theorem C9_zero_hardware_concurrency (times : ℕ) (envs : ℕ → RunEnv) :
    execute times 0 0 envs = ⟨[.header], false, []⟩ ∧
    sweepConversions times 0 0 envs = 0 ∧
    mainExitCode times 0 0 envs = 0 :=
  ⟨rfl, rfl, rfl⟩

/-- C10 (amended): whenever the initial counter — the unsigned product
times * n wrapped modulo 2 to the 32 and cast to a signed int — is
nonpositive, and the thread count n is at most 2 to the 31 plus that
initial value (so no break decrement can ever find the counter at
-2 to the 31, where the atomic decrement would wrap it back to a positive
value), a complete run with successfully constructed workers performs zero
conversion calls, never touches the error flag, and is still reported as
successful: the sweep emits a report block whose printed iteration count
is the wrapped unsigned product, not the zero conversions actually
performed. -/
theorem C10_wrapped_counter_reports_success (times n hc : ℕ) (envs : ℕ → RunEnv)
    (hn : n ≠ 0) (hnonpos : initCounter times n ≤ 0)
    (hnw : (n : Int) ≤ 2 ^ 31 + initCounter times n)
    (hctor : ∀ i, i < n → ctorErr ((envs n).cfgs i) = none)
    (_hfin : allFinished (runFinal times n (envs n)) = true) :
    totalClaims (runFinal times n (envs n)) = 0 ∧
    (runFinal times n (envs n)).error = 0 ∧
    (execute times n hc envs).aborted = false ∧
    (execute times n hc envs).outputs =
      [.header, .reportBlock n (times * n % 2 ^ 32)
        (fps ((times * n % 2 ^ 32 : ℕ) : ℚ) ((envs n).elapsed))] := by
  have h := nonpos_run_no_claims (initCounter times n) n (envs n).cfgs hctor hnw
    (initState times n) (envs n).events
    ⟨by simp [initState], hnonpos, ?_, allClaimed_initState times n, rfl⟩
  case refine_1 =>
    rw [numFinished_initState]
    have hco : (initState times n).counter = initCounter times n := rfl
    rw [hco]
    omega
  have hrf : runFrom (envs n).cfgs (initState times n) (envs n).events
      = runFinal times n (envs n) := rfl
  rw [hrf] at h
  obtain ⟨hlen, hcnt, hbud2, hclaims, herr⟩ := h
  have htc : totalClaims (runFinal times n (envs n)) = 0 := by
    unfold totalClaims
    rw [hclaims]
    rfl
  have hsw := sweepLoop_ok times envs [n]
    (fun m hm => by rw [List.mem_singleton.mp hm]; exact herr)
  have hexec : execute times n hc envs =
      ⟨[.header, blockFor times envs n], false, [n]⟩ := by
    unfold execute
    rw [threadCounts_fixed n hc hn, hsw]
    rfl
  have hblock : blockFor times envs n =
      .reportBlock n (times * n % 2 ^ 32)
        (fps ((times * n % 2 ^ 32 : ℕ) : ℚ) ((envs n).elapsed)) := rfl
  exact ⟨htc, herr, by rw [hexec], by rw [hexec, hblock]⟩

/-- C10 counterexample: times = 2 to the 30 and n = 2 give the nonpositive
initial counter -2 to the 31, yet this run does not perform zero
conversion calls: worker 0's break decrement wraps the counter from
-2 to the 31 up to 2 to the 31 minus 1, and worker 1 then claims a unit
and performs a conversion — while the error flag stays clear, so the run
still counts as successful. -/
theorem C10_counterexample :
    initCounter (2 ^ 30) 2 ≤ 0 ∧
    ctorErr (wrapEnv.cfgs 0) = none ∧
    ctorErr (wrapEnv.cfgs 1) = none ∧
    (runFinal (2 ^ 30) 2 wrapEnv).error = 0 ∧
    totalClaims (runFinal (2 ^ 30) 2 wrapEnv) = 1 := by
  decide

/-- C10 witness: at times = 2 to the 32 minus 1 and n = 1 the wrapped cast
is -1, nonpositive and far from the wrap point; the complete run
overflowEnv performs zero conversions, reports success, and the report
block prints the wrapped product 2 to the 32 minus 1. -/
theorem C10_wrapped_counter_reports_success_witness :
    totalClaims (runFinal (2 ^ 32 - 1) 1 (envsOverflow 1)) = 0 ∧
    (runFinal (2 ^ 32 - 1) 1 (envsOverflow 1)).error = 0 ∧
    (execute (2 ^ 32 - 1) 1 0 envsOverflow).aborted = false ∧
    (execute (2 ^ 32 - 1) 1 0 envsOverflow).outputs =
      [.header, .reportBlock 1 ((2 ^ 32 - 1) * 1 % 2 ^ 32)
        (fps (((2 ^ 32 - 1) * 1 % 2 ^ 32 : ℕ) : ℚ) ((envsOverflow 1).elapsed))] :=
  C10_wrapped_counter_reports_success (2 ^ 32 - 1) 1 0 envsOverflow (by decide) (by decide)
    (by decide) (fun i _ => rfl) (by decide)

end SwscaleBench
